import Mathlib

/-!
Verification of the polyhedra module (`manim/mobject/three_d/polyhedra.py`).

The module defines `Polyhedron` (a mesh built from a vertex-coordinate table
and a face list of vertex-index cycles), the platonic-solid builders
(`Tetrahedron`, `Octahedron`, `Icosahedron`, `Dodecahedron`), and
`ConvexHull3D`, which extracts a vertex table and face list from the facets
produced by a quickhull run.

The embedding below is shallow: vertex coordinates are an arbitrary type `α`
(the Python code stores numpy float arrays; none of the verified properties
depend on coordinate arithmetic), Python `dict` lookups are fallible
(`Except` with a `keyError`), and Python list comprehensions evaluating left
to right with a possible failure are `mapE`.
-/

/-- The only failure that can occur while building a `Polyhedron`: the source
performs no input validation, so the sole failure mode of
`Polyhedron.__init__` is the `KeyError` raised by the dict lookup
`self.layout[j]` when a face references an index `j` that is not a key of
`layout = dict(enumerate(vertex_coords))`, i.e. `j` outside
`[0, len(vertex_coords))`. The source defines no other exception type. -/
inductive PolyError where
  | keyError (j : Int)
deriving DecidableEq

/-- Python's `self.layout[j]` where `layout = dict(enumerate(vertex_coords))`:
returns the coordinate at index `j` when `0 ≤ j < len(vertex_coords)`,
otherwise raises `KeyError(j)`. -/
def layoutLookup {α : Type} (coords : List α) (j : Int) : Except PolyError α :=
  if h : 0 ≤ j ∧ j.toNat < coords.length then .ok (coords.get ⟨j.toNat, h.2⟩)
  else .error (.keyError j)

/-- A Python list comprehension `[g x for x in l]` whose body `g` may raise:
evaluates left to right, failing at the first raising element. -/
def mapE {β γ : Type} (g : β → Except PolyError γ) : List β → Except PolyError (List γ)
  | [] => .ok []
  | b :: bs => do
    let c ← g b
    let cs ← mapE g bs
    .ok (c :: cs)

/-- `Polyhedron.get_edges`: `edges = []
for face in faces_list: edges += zip(face, face[1:] + face[:1])`.
Generic in the element type, exactly as `zip` is. -/
def get_edges {β : Type} (faces_list : List (List β)) : List (β × β) :=
  faces_list.foldl (fun edges face => edges ++ face.zip (face.drop 1 ++ face.take 1)) []

/-- The state of a constructed `Polyhedron` relevant to the verified claims.
`facesGeom` is the corner-point geometry of the displayed face polygons
(`self.faces`; a `Polygon` is embedded as its list of corner points);
`graphCenters` is the current center of each vertex mobject of `self.graph`
(initially the layout positions); `vertexIds` and `faceIds` stand for the
Python object identities of the graph's vertex mobjects and of the face
`Polygon` objects (`update_faces` mutates the face geometry in place via
`match_points`, so identities survive a run). `face_coords` is the
construction-time `self.face_coords` attribute, which no later code touches. -/
structure PolyState (α : Type) where
  vertex_coords : List α
  faces_list : List (List Int)
  edges : List (Int × Int)
  face_coords : List (List α)
  facesGeom : List (List α)
  graphCenters : List α
  vertexIds : List Nat
  faceIds : List Nat
deriving DecidableEq

/-- `Polyhedron.__init__`: builds `layout = dict(enumerate(vertex_coords))`,
then `face_coords = [[layout[j] for j in i] for i in faces_list]` (the only
fallible step: `KeyError` on an out-of-range index), then the edges, the face
polygons and the graph. There is no validation of face indices or face
lengths beyond the incidental dict lookup. -/
def Polyhedron.build {α : Type} (vertex_coords : List α) (faces_list : List (List Int)) :
    Except PolyError (PolyState α) := do
  let face_coords ← mapE (fun face => mapE (layoutLookup vertex_coords) face) faces_list
  .ok { vertex_coords := vertex_coords
        faces_list := faces_list
        edges := get_edges faces_list
        face_coords := face_coords
        facesGeom := face_coords
        graphCenters := vertex_coords
        vertexIds := List.range vertex_coords.length
        faceIds := List.range faces_list.length }

/-- `Polyhedron.extract_face_coords`: reads the current center of every graph
vertex (in vertex order), rebuilds `layout = dict(enumerate(...))`, and
returns `[[layout[j] for j in i] for i in self.faces_list]`. -/
def Polyhedron.extract_face_coords {α : Type} (s : PolyState α) :
    Except PolyError (List (List α)) :=
  mapE (fun face => mapE (layoutLookup s.graphCenters) face) s.faces_list

/-- `Polyhedron.update_faces`: recomputes the face coordinates from the
current graph-vertex centers and replaces the displayed polygons' geometry in
place (`self.faces.match_points(new_faces)`); every other attribute is left
untouched. -/
def Polyhedron.update_faces {α : Type} (s : PolyState α) :
    Except PolyError (PolyState α) := do
  let face_coords ← Polyhedron.extract_face_coords s
  .ok { s with facesGeom := face_coords }

/-- Whether an `Except` computation succeeded. -/
def exceptOk {ε β : Type} : Except ε β → Bool
  | .ok _ => true
  | .error _ => false

-- Basic facts about `mapE`.

theorem mapE_ok_length {β γ : Type} (g : β → Except PolyError γ) :
    ∀ (l : List β) (r : List γ), mapE g l = .ok r → r.length = l.length := by
  intro l
  induction l with
  | nil => intro r h; simp [mapE] at h; simp [← h]
  | cons b bs ih =>
    intro r h
    simp only [mapE, bind, Except.bind] at h
    cases hb : g b with
    | error e => rw [hb] at h; exact absurd h (by simp)
    | ok c =>
      rw [hb] at h
      cases hbs : mapE g bs with
      | error e => rw [hbs] at h; exact absurd h (by simp)
      | ok cs =>
        rw [hbs] at h
        simp only [Except.ok.injEq] at h
        subst h
        simp [ih cs hbs]

theorem mapE_ok_of_forall {β γ : Type} (g : β → Except PolyError γ) :
    ∀ (l : List β), (∀ b ∈ l, ∃ c, g b = .ok c) → ∃ r, mapE g l = .ok r := by
  intro l
  induction l with
  | nil => intro _; exact ⟨[], rfl⟩
  | cons b bs ih =>
    intro hall
    obtain ⟨c, hc⟩ := hall b (by simp)
    obtain ⟨cs, hcs⟩ := ih (fun x hx => hall x (by simp [hx]))
    exact ⟨c :: cs, by simp [mapE, bind, Except.bind, hc, hcs]⟩

theorem mapE_forall_of_ok {β γ : Type} (g : β → Except PolyError γ) :
    ∀ (l : List β) (r : List γ), mapE g l = .ok r → ∀ b ∈ l, ∃ c, g b = .ok c := by
  intro l
  induction l with
  | nil => intro r _ b hb; exact absurd hb (by simp)
  | cons b bs ih =>
    intro r h x hx
    simp only [mapE, bind, Except.bind] at h
    cases hb : g b with
    | error e => rw [hb] at h; exact absurd h (by simp)
    | ok c =>
      rw [hb] at h
      cases hbs : mapE g bs with
      | error e => rw [hbs] at h; exact absurd h (by simp)
      | ok cs =>
        rcases List.mem_cons.1 hx with hx | hx
        · exact ⟨c, hx ▸ hb⟩
        · exact ih cs hbs x hx

theorem mapE_error_mem {β γ : Type} (g : β → Except PolyError γ) :
    ∀ (l : List β) (e : PolyError), mapE g l = .error e → ∃ b ∈ l, g b = .error e := by
  intro l
  induction l with
  | nil => intro e h; exact absurd h (by simp [mapE])
  | cons b bs ih =>
    intro e h
    simp only [mapE, bind, Except.bind] at h
    cases hb : g b with
    | error e₀ =>
      rw [hb] at h
      simp only [Except.error.injEq] at h
      exact ⟨b, by simp, h ▸ hb⟩
    | ok c =>
      rw [hb] at h
      cases hbs : mapE g bs with
      | error e₀ =>
        rw [hbs] at h
        simp only [Except.error.injEq] at h
        obtain ⟨x, hx, hgx⟩ := ih e₀ hbs
        exact ⟨x, by simp [hx], h ▸ hgx⟩
      | ok cs => rw [hbs] at h; exact absurd h (by simp)

-- Cyclic-pair characterization of `get_edges` (C5).

/-- Index equality transport for list indexing. -/
theorem getElem_idx_eq {β : Type} (l : List β) {i j : Nat} (h : i = j) (hi : i < l.length) :
    l[i] = l[j] := by subst h; rfl

/-- The specification's formulation of one face's edge contribution: the
cyclic adjacent pairs `(v i, v ((i + 1) % (k + 1)))` of a face cycle
`(v 0 .. v k)`, written with explicit index arithmetic. -/
def cyclicPairs {β : Type} [Inhabited β] (face : List β) : List (β × β) :=
  (List.range face.length).map fun i =>
    (face.getD i default, face.getD ((i + 1) % face.length) default)

theorem rot_length {β : Type} (face : List β) :
    (face.drop 1 ++ face.take 1).length = face.length := by
  cases face with
  | nil => simp
  | cons a l => simp

theorem zip_rot_eq_cyclicPairs {β : Type} [Inhabited β] (face : List β) :
    face.zip (face.drop 1 ++ face.take 1) = cyclicPairs face := by
  have hlen := rot_length face
  have hzlen : (face.zip (face.drop 1 ++ face.take 1)).length = face.length := by
    rw [List.length_zip, hlen, Nat.min_self]
  apply List.ext_getElem
  · rw [hzlen]; simp [cyclicPairs]
  · intro i h1 h2
    have hi : i < face.length := by rw [hzlen] at h1; exact h1
    simp only [List.getElem_zip]
    simp only [cyclicPairs, List.getElem_map, List.getElem_range]
    rw [List.getD_eq_getElem face default hi]
    by_cases hcase : i + 1 < face.length
    · have hmod : (i + 1) % face.length = i + 1 := Nat.mod_eq_of_lt hcase
      rw [hmod, List.getD_eq_getElem face default hcase]
      have hdl : i < (face.drop 1).length := by rw [List.length_drop]; omega
      rw [List.getElem_append_left hdl, List.getElem_drop]
      rw [getElem_idx_eq face (Nat.add_comm 1 i) (by omega)]
    · have hieq : i + 1 = face.length := by omega
      have hmod : (i + 1) % face.length = 0 := by rw [hieq]; exact Nat.mod_self _
      have h0 : 0 < face.length := by omega
      rw [hmod, List.getD_eq_getElem face default h0]
      have hge : (face.drop 1).length ≤ i := by rw [List.length_drop]; omega
      rw [List.getElem_append_right hge, List.getElem_take]
      rw [getElem_idx_eq face (show i - (face.drop 1).length = 0 by
        rw [List.length_drop]; omega) (by omega)]

theorem foldl_append_flatMap {β : Type} (g : List β → List (β × β)) (l : List (List β)) :
    ∀ init : List (β × β),
      l.foldl (fun acc face => acc ++ g face) init = init ++ l.flatMap g := by
  induction l with
  | nil => intro init; simp
  | cons b bs ih => intro init; simp [List.foldl_cons, ih]

theorem cyclicPairs_length {β : Type} [Inhabited β] (face : List β) :
    (cyclicPairs face).length = face.length := by
  simp [cyclicPairs]

theorem get_edges_eq {β : Type} [Inhabited β] (faces_list : List (List β)) :
    get_edges faces_list = faces_list.flatMap cyclicPairs := by
  unfold get_edges
  rw [show (fun (edges : List (β × β)) face =>
        edges ++ face.zip (face.drop 1 ++ face.take 1)) =
      fun edges face => edges ++ cyclicPairs face from ?_, foldl_append_flatMap]
  · simp
  · funext edges face
    rw [zip_rot_eq_cyclicPairs]

theorem get_edges_len {β : Type} [Inhabited β] (faces_list : List (List β)) :
    (get_edges faces_list).length = (faces_list.map List.length).sum := by
  rw [get_edges_eq]
  simp [Function.comp_def, cyclicPairs_length]

/-- C5: `get_edges` returns exactly the concatenation, in face-list order, of
each face cycle's cyclic adjacent pairs `(v i, v ((i + 1) % (k + 1)))`;
duplicate edges are retained, not deduplicated, so the result's length equals
the sum of the face lengths. -/
theorem get_edges_is_cyclic_pair_concat {β : Type} [Inhabited β]
    (faces_list : List (List β)) :
    get_edges faces_list = faces_list.flatMap cyclicPairs ∧
    (get_edges faces_list).length = (faces_list.map List.length).sum :=
  ⟨get_edges_eq faces_list, get_edges_len faces_list⟩

-- Decidable equality of `Except` results, for concrete evaluations.

instance exceptDecEq {ε β : Type} [DecidableEq ε] [DecidableEq β] :
    DecidableEq (Except ε β) := fun a b =>
  match a, b with
  | .ok x, .ok y =>
    if h : x = y then .isTrue (by rw [h])
    else .isFalse (fun hh => h (Except.ok.inj hh))
  | .ok _, .error _ => .isFalse (fun hh => Except.noConfusion hh)
  | .error _, .ok _ => .isFalse (fun hh => Except.noConfusion hh)
  | .error x, .error y =>
    if h : x = y then .isTrue (by rw [h])
    else .isFalse (fun hh => h (Except.error.inj hh))

-- Facts about `layoutLookup`.

theorem layoutLookup_ok_iff {α : Type} (coords : List α) (j : Int) :
    (∃ c, layoutLookup coords j = .ok c) ↔ 0 ≤ j ∧ j.toNat < coords.length := by
  unfold layoutLookup
  by_cases h : 0 ≤ j ∧ j.toNat < coords.length
  · simp [h]
  · simp [h]

theorem layoutLookup_error_eq {α : Type} (coords : List α) (j : Int) (e : PolyError)
    (h : layoutLookup coords j = .error e) :
    e = .keyError j ∧ ¬(0 ≤ j ∧ j.toNat < coords.length) := by
  unfold layoutLookup at h
  by_cases hr : 0 ≤ j ∧ j.toNat < coords.length
  · rw [dif_pos hr] at h; exact absurd h (by simp)
  · rw [dif_neg hr] at h
    exact ⟨(Except.error.inj h).symm, hr⟩

theorem layoutLookup_ok_getElem {α : Type} (coords : List α) (j : Int) (c : α)
    (h : layoutLookup coords j = .ok c) : coords[j.toNat]? = some c := by
  unfold layoutLookup at h
  by_cases hr : 0 ≤ j ∧ j.toNat < coords.length
  · rw [dif_pos hr] at h
    rw [List.getElem?_eq_getElem hr.2]
    exact congrArg some (Except.ok.inj h)
  · rw [dif_neg hr] at h; exact absurd h (by simp)

-- Success and failure characterization of `Polyhedron.build`.

theorem build_unfold {α : Type} (vertex_coords : List α) (faces_list : List (List Int)) :
    Polyhedron.build vertex_coords faces_list =
      match mapE (fun face => mapE (layoutLookup vertex_coords) face) faces_list with
      | .ok face_coords =>
          .ok { vertex_coords := vertex_coords
                faces_list := faces_list
                edges := get_edges faces_list
                face_coords := face_coords
                facesGeom := face_coords
                graphCenters := vertex_coords
                vertexIds := List.range vertex_coords.length
                faceIds := List.range faces_list.length }
      | .error e => .error e := by
  unfold Polyhedron.build
  cases mapE (fun face => mapE (layoutLookup vertex_coords) face) faces_list with
  | ok r => rfl
  | error e => rfl

/-- C3 amended: `Polyhedron` construction performs no face-length check — it
succeeds exactly when every index of every face lies in
`[0, len(vertex_coords))`, regardless of how few indices a face has; no
`DegenerateFaceError` exists in the source. -/
theorem build_ok_iff_indices_in_range {α : Type} (vertex_coords : List α)
    (faces_list : List (List Int)) :
    exceptOk (Polyhedron.build vertex_coords faces_list) = true ↔
      ∀ face ∈ faces_list, ∀ j ∈ face,
        0 ≤ j ∧ j.toNat < vertex_coords.length := by
  rw [build_unfold]
  constructor
  · intro h face hface j hj
    cases hm : mapE (fun face => mapE (layoutLookup vertex_coords) face) faces_list with
    | error e => rw [hm] at h; exact absurd h (by simp [exceptOk])
    | ok r =>
      obtain ⟨row, hrow⟩ := mapE_forall_of_ok _ faces_list r hm face hface
      obtain ⟨c, hc⟩ := mapE_forall_of_ok _ face row hrow j hj
      exact (layoutLookup_ok_iff vertex_coords j).1 ⟨c, hc⟩
  · intro h
    obtain ⟨r, hr⟩ := mapE_ok_of_forall (fun face => mapE (layoutLookup vertex_coords) face)
      faces_list (fun face hface =>
        mapE_ok_of_forall (layoutLookup vertex_coords) face (fun j hj =>
          (layoutLookup_ok_iff vertex_coords j).2 (h face hface j hj)))
    rw [hr]
    rfl

/-- C2 amended: when some face references an index outside
`[0, len(vertex_coords))`, construction fails — but with the dict lookup's
`KeyError` at an out-of-range index, since the source defines no
`InvalidFaceIndexError` (nor any validation): `PolyError.keyError` is the
only error the construction can produce. -/
theorem build_fails_with_keyError {α : Type} (vertex_coords : List α)
    (faces_list : List (List Int))
    (h : ∃ face ∈ faces_list, ∃ j ∈ face,
      ¬(0 ≤ j ∧ j.toNat < vertex_coords.length)) :
    ∃ j' : Int, ¬(0 ≤ j' ∧ j'.toNat < vertex_coords.length) ∧
      Polyhedron.build vertex_coords faces_list = .error (.keyError j') := by
  have hnot : ¬ exceptOk (Polyhedron.build vertex_coords faces_list) = true := by
    intro hok
    obtain ⟨face, hface, j, hj, hbad⟩ := h
    exact hbad ((build_ok_iff_indices_in_range vertex_coords faces_list).1 hok face hface j hj)
  rw [build_unfold] at hnot ⊢
  cases hm : mapE (fun face => mapE (layoutLookup vertex_coords) face) faces_list with
  | ok r => rw [hm] at hnot; exact absurd rfl hnot
  | error e =>
    obtain ⟨face, _, hfe⟩ := mapE_error_mem _ faces_list e hm
    obtain ⟨j, _, hje⟩ := mapE_error_mem _ face e hfe
    obtain ⟨hkey, hrange⟩ := layoutLookup_error_eq vertex_coords j e hje
    exact ⟨j, hrange, by rw [hkey]⟩

-- Concrete inputs for the construction claims.

/-- A five-entry vertex table (concrete integer coordinates). -/
def coordsFive : List (Int × Int × Int) :=
  [(0, 0, 0), (1, 0, 0), (0, 1, 0), (0, 0, 1), (1, 1, 0)]

/-- A three-entry vertex table (concrete integer coordinates). -/
def coordsThree : List (Int × Int × Int) :=
  [(0, 0, 0), (1, 0, 0), (0, 1, 0)]

/-- C2 counterexample: a face referencing index 99 on a 5-vertex table makes
construction fail with the dict lookup's `KeyError(99)` — not with an
`InvalidFaceIndexError`, which the source never defines (the embedded error
type `PolyError`, read off the source, has no such constructor). -/
theorem build_index99_keyError :
    Polyhedron.build coordsFive [[0, 1, 99]] = .error (.keyError 99) := by rfl

theorem build_fails_with_keyError_witness :
    (∃ face ∈ [[(0 : Int), 1, 99]], ∃ j ∈ face,
      ¬(0 ≤ j ∧ j.toNat < coordsFive.length)) ∧
    ∃ j' : Int, ¬(0 ≤ j' ∧ j'.toNat < coordsFive.length) ∧
      Polyhedron.build coordsFive [[0, 1, 99]] = .error (.keyError j') :=
  ⟨by decide, build_fails_with_keyError coordsFive [[0, 1, 99]] (by decide)⟩

/-- C3 counterexample: a face with only 2 indices is accepted — construction
succeeds, no `DegenerateFaceError` (or any face-length check) exists in the
source. -/
theorem build_two_index_face_succeeds :
    exceptOk (Polyhedron.build coordsThree [[0, 1]]) = true := by rfl

theorem build_ok_iff_indices_in_range_witness :
    exceptOk (Polyhedron.build coordsThree [[1, 2]]) = true :=
  (build_ok_iff_indices_in_range coordsThree [[1, 2]]).mpr (by decide)

-- Index-wise reading of a successful `mapE`.

theorem mapE_ok_getElemOpt {β γ : Type} (g : β → Except PolyError γ) :
    ∀ (l : List β) (r : List γ), mapE g l = .ok r →
      ∀ (i : Nat) (b : β), l[i]? = some b → ∃ c, r[i]? = some c ∧ g b = .ok c := by
  intro l
  induction l with
  | nil => intro r _ i b hb; exact absurd hb (by simp)
  | cons x xs ih =>
    intro r h i b hb
    simp only [mapE, bind, Except.bind] at h
    cases hx : g x with
    | error e => rw [hx] at h; exact absurd h (by simp)
    | ok c =>
      rw [hx] at h
      cases hxs : mapE g xs with
      | error e => rw [hxs] at h; exact absurd h (by simp)
      | ok cs =>
        rw [hxs] at h
        simp only [Except.ok.injEq] at h
        subst h
        cases i with
        | zero =>
          simp only [List.getElem?_cons_zero, Option.some.injEq] at hb
          subst hb
          exact ⟨c, by simp, hx⟩
        | succ n =>
          simp only [List.getElem?_cons_succ] at hb ⊢
          exact ih cs hxs n b hb

-- Unfolding `update_faces` to a match on the recomputation result.

theorem update_faces_unfold {α : Type} (s : PolyState α) :
    Polyhedron.update_faces s =
      match mapE (fun face => mapE (layoutLookup s.graphCenters) face) s.faces_list with
      | .ok fc => .ok { s with facesGeom := fc }
      | .error e => .error e := by
  unfold Polyhedron.update_faces Polyhedron.extract_face_coords
  cases mapE (fun face => mapE (layoutLookup s.graphCenters) face) s.faces_list with
  | ok r => rfl
  | error e => rfl

/-- C4: idempotent synchronization — if one run of `update_faces` succeeds
and produces state `s'`, then running `update_faces` again on `s'` (vertex
positions unchanged) succeeds and returns exactly `s'`: the second run is a
no-op on the face geometry. -/
theorem update_faces_idempotent {α : Type} (s s' : PolyState α)
    (h : Polyhedron.update_faces s = .ok s') :
    Polyhedron.update_faces s' = .ok s' := by
  rw [update_faces_unfold] at h
  cases hm : mapE (fun face => mapE (layoutLookup s.graphCenters) face) s.faces_list with
  | error e => rw [hm] at h; exact absurd h (by simp)
  | ok fc =>
    rw [hm] at h
    have hs' : s' = { s with facesGeom := fc } := (Except.ok.inj h).symm
    subst hs'
    rw [update_faces_unfold]
    dsimp only
    rw [hm]

/-- C9: frame property of one synchronization run — a successful
`update_faces` leaves the vertex table, the face list, the derived edge list,
the construction-time face coordinates, the graph-vertex positions, and the
identities of the vertex and face objects all unchanged; only the displayed
face-polygon geometry (`facesGeom`) is replaced. -/
theorem update_faces_frame {α : Type} (s s' : PolyState α)
    (h : Polyhedron.update_faces s = .ok s') :
    s'.vertex_coords = s.vertex_coords ∧ s'.faces_list = s.faces_list ∧
    s'.edges = s.edges ∧ s'.face_coords = s.face_coords ∧
    s'.graphCenters = s.graphCenters ∧ s'.vertexIds = s.vertexIds ∧
    s'.faceIds = s.faceIds := by
  rw [update_faces_unfold] at h
  cases hm : mapE (fun face => mapE (layoutLookup s.graphCenters) face) s.faces_list with
  | error e => rw [hm] at h; exact absurd h (by simp)
  | ok fc =>
    rw [hm] at h
    have hs' : s' = { s with facesGeom := fc } := (Except.ok.inj h).symm
    subst hs'
    exact ⟨rfl, rfl, rfl, rfl, rfl, rfl, rfl⟩

/-- C10: the synchronization step sources positions exclusively from the
current graph-vertex centers — the recomputed polygon's `k`-th corner for
face `f` is the center of graph vertex `faces_list[f][k]` — the stored
`vertex_coords` table is not modified, and it is not read either: changing it
to anything else changes nothing in the run's outcome beyond carrying the
changed field along. -/
theorem update_faces_reads_only_graph_centers {α : Type} (s s' : PolyState α)
    (h : Polyhedron.update_faces s = .ok s') :
    s'.vertex_coords = s.vertex_coords ∧
    (∀ (f k : Nat) (j : Int), (s.faces_list[f]?.bind fun face => face[k]?) = some j →
      ∃ p, s.graphCenters[j.toNat]? = some p ∧
        (s'.facesGeom[f]?.bind fun poly => poly[k]?) = some p) ∧
    (∀ vc : List α, Polyhedron.update_faces { s with vertex_coords := vc } =
      .ok { s' with vertex_coords := vc }) := by
  rw [update_faces_unfold] at h
  cases hm : mapE (fun face => mapE (layoutLookup s.graphCenters) face) s.faces_list with
  | error e => rw [hm] at h; exact absurd h (by simp)
  | ok fc =>
    rw [hm] at h
    have hs' : s' = { s with facesGeom := fc } := (Except.ok.inj h).symm
    subst hs'
    refine ⟨rfl, ?_, ?_⟩
    · intro f k j hj
      cases hf : s.faces_list[f]? with
      | none => rw [hf] at hj; exact absurd hj (by simp)
      | some face =>
        rw [hf] at hj
        rw [Option.some_bind] at hj
        obtain ⟨row, hrow, hrowE⟩ := mapE_ok_getElemOpt _ s.faces_list fc hm f face hf
        obtain ⟨p, hp, hpE⟩ := mapE_ok_getElemOpt _ face row hrowE k j hj
        refine ⟨p, layoutLookup_ok_getElem s.graphCenters j p hpE, ?_⟩
        dsimp only
        rw [hrow]
        rw [Option.some_bind]
        exact hp
    · intro vc
      rw [update_faces_unfold]
      dsimp only
      rw [hm]

-- Concrete states exercising the synchronization theorems: a triangle whose
-- graph vertices have been moved away from the construction-time layout.

/-- A triangle polyhedron state whose displayed geometry is stale (empty)
while the graph vertices sit at moved positions. -/
def triStale : PolyState (Int × Int × Int) :=
  { vertex_coords := [(0, 0, 0), (1, 0, 0), (0, 1, 0)]
    faces_list := [[0, 1, 2]]
    edges := get_edges [[(0 : Int), 1, 2]]
    face_coords := [[(0, 0, 0), (1, 0, 0), (0, 1, 0)]]
    facesGeom := []
    graphCenters := [(0, 0, 0), (2, 0, 0), (0, 2, 0)]
    vertexIds := [0, 1, 2]
    faceIds := [0] }

/-- `triStale` after one synchronization run: the face polygon now matches
the moved graph-vertex centers. -/
def triFresh : PolyState (Int × Int × Int) :=
  { triStale with facesGeom := [[(0, 0, 0), (2, 0, 0), (0, 2, 0)]] }

theorem update_faces_idempotent_witness :
    Polyhedron.update_faces triFresh = .ok triFresh :=
  update_faces_idempotent triStale triFresh (by decide)

theorem update_faces_frame_witness :
    triFresh.vertex_coords = triStale.vertex_coords ∧
    triFresh.faces_list = triStale.faces_list ∧
    triFresh.edges = triStale.edges ∧
    triFresh.face_coords = triStale.face_coords ∧
    triFresh.graphCenters = triStale.graphCenters ∧
    triFresh.vertexIds = triStale.vertexIds ∧
    triFresh.faceIds = triStale.faceIds :=
  update_faces_frame triStale triFresh (by decide)

theorem update_faces_reads_only_graph_centers_witness :
    ∃ p, triStale.graphCenters[(1 : Int).toNat]? = some p ∧
      (triFresh.facesGeom[0]?.bind fun poly => poly[1]?) = some p :=
  (update_faces_reads_only_graph_centers triStale triFresh (by decide)).2.1 0 1 1 (by decide)

-- Platonic-solid builders (C8). Each builder passes a fixed, closed-form
-- vertex table and face list to the Polyhedron constructor; the tables are
-- embedded generically over the scalar type, parameterized by the scalar
-- units the source computes from the edge length (the counts are independent
-- of those values).

/-- Normalize an edge pair to an unordered representative. -/
def normPair (e : Int × Int) : Int × Int := if e.1 ≤ e.2 then e else (e.2, e.1)

/-- The deduplicated undirected edge set derived from a face list. -/
def undirectedEdges (faces_list : List (List Int)) : List (Int × Int) :=
  ((get_edges faces_list).map normPair).dedup

/-- `Tetrahedron.__init__` vertex table; `unit = edge_length * sqrt(2) / 4`. -/
def Tetrahedron.vertex_coords {α : Type} [Neg α] (unit : α) : List (α × α × α) :=
  [(unit, unit, unit), (unit, -unit, -unit), (-unit, unit, -unit), (-unit, -unit, unit)]

/-- `Tetrahedron.__init__` face list. -/
def Tetrahedron.faces_list : List (List Int) :=
  [[0, 1, 2], [3, 0, 2], [0, 1, 3], [3, 1, 2]]

/-- `Octahedron.__init__` vertex table; `unit = edge_length * sqrt(2) / 2`. -/
def Octahedron.vertex_coords {α : Type} [Neg α] [Zero α] (unit : α) : List (α × α × α) :=
  [(unit, 0, 0), (-unit, 0, 0), (0, unit, 0), (0, -unit, 0), (0, 0, unit), (0, 0, -unit)]

/-- `Octahedron.__init__` face list. -/
def Octahedron.faces_list : List (List Int) :=
  [[2, 4, 1], [0, 4, 2], [4, 3, 0], [1, 3, 4],
   [3, 5, 0], [1, 5, 3], [2, 5, 1], [0, 5, 2]]

/-- `Icosahedron.__init__` vertex table;
`unit_a = edge_length * (1 + sqrt(5)) / 4`, `unit_b = edge_length / 2`. -/
def Icosahedron.vertex_coords {α : Type} [Neg α] [Zero α] (unit_a unit_b : α) :
    List (α × α × α) :=
  [(0, unit_b, unit_a), (0, -unit_b, unit_a), (0, unit_b, -unit_a), (0, -unit_b, -unit_a),
   (unit_b, unit_a, 0), (unit_b, -unit_a, 0), (-unit_b, unit_a, 0), (-unit_b, -unit_a, 0),
   (unit_a, 0, unit_b), (unit_a, 0, -unit_b), (-unit_a, 0, unit_b), (-unit_a, 0, -unit_b)]

/-- `Icosahedron.__init__` face list. -/
def Icosahedron.faces_list : List (List Int) :=
  [[1, 8, 0], [1, 5, 7], [8, 5, 1], [7, 3, 5], [5, 9, 3],
   [8, 9, 5], [3, 2, 9], [9, 4, 2], [8, 4, 9], [0, 4, 8],
   [6, 4, 0], [6, 2, 4], [11, 2, 6], [3, 11, 2], [0, 6, 10],
   [10, 1, 0], [10, 7, 1], [11, 7, 3], [10, 11, 7], [10, 11, 6]]

/-- `Dodecahedron.__init__` vertex table;
`unit_a = edge_length * (1 + sqrt(5)) / 4`,
`unit_b = edge_length * (3 + sqrt(5)) / 4`, `unit_c = edge_length / 2`. -/
def Dodecahedron.vertex_coords {α : Type} [Neg α] [Zero α] (unit_a unit_b unit_c : α) :
    List (α × α × α) :=
  [(unit_a, unit_a, unit_a), (unit_a, unit_a, -unit_a),
   (unit_a, -unit_a, unit_a), (unit_a, -unit_a, -unit_a),
   (-unit_a, unit_a, unit_a), (-unit_a, unit_a, -unit_a),
   (-unit_a, -unit_a, unit_a), (-unit_a, -unit_a, -unit_a),
   (0, unit_c, unit_b), (0, unit_c, -unit_b), (0, -unit_c, -unit_b), (0, -unit_c, unit_b),
   (unit_c, unit_b, 0), (-unit_c, unit_b, 0), (unit_c, -unit_b, 0), (-unit_c, -unit_b, 0),
   (unit_b, 0, unit_c), (-unit_b, 0, unit_c), (unit_b, 0, -unit_c), (-unit_b, 0, -unit_c)]

/-- `Dodecahedron.__init__` face list. -/
def Dodecahedron.faces_list : List (List Int) :=
  [[18, 16, 0, 12, 1], [3, 18, 16, 2, 14], [3, 10, 9, 1, 18],
   [1, 9, 5, 13, 12], [0, 8, 4, 13, 12], [2, 16, 0, 8, 11],
   [4, 17, 6, 11, 8], [17, 19, 5, 13, 4], [19, 7, 15, 6, 17],
   [6, 15, 14, 2, 11], [19, 5, 9, 10, 7], [7, 10, 3, 14, 15]]

/-- C8: at any edge length (hence for any values of the derived scalar
units), the tetrahedron, octahedron, icosahedron and dodecahedron builders
produce vertex tables, face lists and deduplicated undirected edge sets with
exactly (4, 4, 6), (6, 8, 12), (12, 20, 30) and (20, 12, 30)
(vertices, faces, edges) respectively. -/
theorem platonic_solid_counts {α : Type} [Neg α] [Zero α]
    (uT uO uIa uIb uDa uDb uDc : α) :
    ((Tetrahedron.vertex_coords uT).length = 4 ∧
      Tetrahedron.faces_list.length = 4 ∧
      (undirectedEdges Tetrahedron.faces_list).length = 6) ∧
    ((Octahedron.vertex_coords uO).length = 6 ∧
      Octahedron.faces_list.length = 8 ∧
      (undirectedEdges Octahedron.faces_list).length = 12) ∧
    ((Icosahedron.vertex_coords uIa uIb).length = 12 ∧
      Icosahedron.faces_list.length = 20 ∧
      (undirectedEdges Icosahedron.faces_list).length = 30) ∧
    ((Dodecahedron.vertex_coords uDa uDb uDc).length = 20 ∧
      Dodecahedron.faces_list.length = 12 ∧
      (undirectedEdges Dodecahedron.faces_list).length = 30) := by
  refine ⟨⟨rfl, rfl, by decide⟩, ⟨rfl, rfl, by decide⟩,
    ⟨rfl, rfl, by decide⟩, ⟨rfl, rfl, by decide⟩⟩

-- Hull engine degeneracy gate (C7). The module imports QuickHull from
-- manim/utils/qhull.py, which is not part of this repository snapshot's
-- sources; its input contract is modelled from the spec. Coordinates and
-- the tolerance are embedded as exact fractions (integer numerator over
-- positive integer denominator, never normalized), so every tolerance test
-- is an exact integer comparison.

/-- An exact fraction `num / den`; all constructions below keep `den`
positive, and no normalization is ever needed because comparisons
cross-multiply. -/
structure Frac where
  num : Int
  den : Int
deriving DecidableEq

/-- Fraction subtraction (cross-multiplied, denominators multiply). -/
def Frac.sub (a b : Frac) : Frac := ⟨a.num * b.den - b.num * a.den, a.den * b.den⟩

/-- Fraction addition (cross-multiplied, denominators multiply). -/
def Frac.add (a b : Frac) : Frac := ⟨a.num * b.den + b.num * a.den, a.den * b.den⟩

/-- Fraction multiplication. -/
def Frac.mul (a b : Frac) : Frac := ⟨a.num * b.num, a.den * b.den⟩

/-- Absolute value of a fraction with positive denominator. -/
def Frac.abs (a : Frac) : Frac := if a.num < 0 then ⟨-a.num, a.den⟩ else a

/-- `a ≤ b` for fractions with positive denominators, by cross-multiplying. -/
def Frac.le (a b : Frac) : Prop := a.num * b.den ≤ b.num * a.den

/-- `a < b` for fractions with positive denominators, by cross-multiplying. -/
def Frac.lt (a b : Frac) : Prop := a.num * b.den < b.num * a.den

instance (a b : Frac) : Decidable (a.le b) :=
  inferInstanceAs (Decidable (a.num * b.den ≤ b.num * a.den))

instance (a b : Frac) : Decidable (a.lt b) :=
  inferInstanceAs (Decidable (a.num * b.den < b.num * a.den))

/-- The hull engine's fatal error: no non-degenerate initial simplex. -/
inductive HullError where
  | degenerateInput
deriving DecidableEq

/-- A successfully started hull build: the deduplicated input points,
among which a non-degenerate initial simplex exists. -/
structure HullStart where
  points : List (Frac × Frac × Frac)
deriving DecidableEq

/-- Componentwise difference of two 3D points. -/
def sub3 (a b : Frac × Frac × Frac) : Frac × Frac × Frac :=
  (a.1.sub b.1, a.2.1.sub b.2.1, a.2.2.sub b.2.2)

/-- Determinant of three 3D vectors (six times the signed volume of the
spanned simplex). -/
def det3 (u v w : Frac × Frac × Frac) : Frac :=
  (((u.1.mul ((v.2.1.mul w.2.2).sub (v.2.2.mul w.2.1))).sub
      (u.2.1.mul ((v.1.mul w.2.2).sub (v.2.2.mul w.1)))).add
    (u.2.2.mul ((v.1.mul w.2.1).sub (v.2.1.mul w.1))))

/-- Signed volume measure of the simplex on four points. -/
def simplexVolume (p0 p1 p2 p3 : Frac × Frac × Frac) : Frac :=
  det3 (sub3 p1 p0) (sub3 p2 p0) (sub3 p3 p0)

/-- Modelled from the spec: `QuickHull.build` (the hull engine in
`manim/utils/qhull.py`, absent from the sources — only its caller
`ConvexHull3D.__init__` is present). Per the spec it "fails with
`DegenerateInputError` when fewer than 4 input points remain after removing
exact duplicates, or when all points are coplanar/collinear within tolerance
(no non-degenerate initial simplex can be formed)", and no partial hull is
returned; on non-degenerate input the build proceeds from the deduplicated
points. Only the degeneracy gate is modelled. -/
def QuickHull.build (pts : List (Frac × Frac × Frac)) (tolerance : Frac) :
    Except HullError HullStart :=
  if pts.dedup.length < 4 then .error .degenerateInput
  else if _h : ∃ a ∈ pts.dedup, ∃ b ∈ pts.dedup, ∃ c ∈ pts.dedup, ∃ d ∈ pts.dedup,
      tolerance.lt (Frac.abs (simplexVolume a b c d)) then .ok ⟨pts.dedup⟩
  else .error .degenerateInput

/-- C7: every input that leaves fewer than 4 points after exact
deduplication, or whose points are all coplanar/collinear within the given
tolerance (every 4-point simplex volume within tolerance), is rejected with
the degenerate-input error — no partial hull is returned. -/
theorem quickhull_degenerate_rejected (pts : List (Frac × Frac × Frac)) (tolerance : Frac)
    (h : pts.dedup.length < 4 ∨
      ∀ a ∈ pts.dedup, ∀ b ∈ pts.dedup, ∀ c ∈ pts.dedup, ∀ d ∈ pts.dedup,
        (Frac.abs (simplexVolume a b c d)).le tolerance) :
    QuickHull.build pts tolerance = .error .degenerateInput := by
  unfold QuickHull.build
  by_cases h4 : pts.dedup.length < 4
  · rw [if_pos h4]
  · rcases h with h | h
    · exact absurd h h4
    · rw [if_neg h4, dif_neg]
      rintro ⟨a, ha, b, hb, c, hc, d, hd, hlt⟩
      have hle : ((simplexVolume a b c d).abs).le tolerance := h a ha b hb c hc d hd
      unfold Frac.le at hle
      unfold Frac.lt at hlt
      exact absurd hlt (not_lt.2 hle)

/-- The spec's degenerate example: four coplanar points. -/
def coplanarFour : List (Frac × Frac × Frac) :=
  [(⟨0, 1⟩, ⟨0, 1⟩, ⟨0, 1⟩), (⟨1, 1⟩, ⟨0, 1⟩, ⟨0, 1⟩),
   (⟨0, 1⟩, ⟨1, 1⟩, ⟨0, 1⟩), (⟨1, 1⟩, ⟨1, 1⟩, ⟨0, 1⟩)]

theorem quickhull_degenerate_rejected_witness :
    (coplanarFour.dedup.length < 4 ∨
      ∀ a ∈ coplanarFour.dedup, ∀ b ∈ coplanarFour.dedup,
        ∀ c ∈ coplanarFour.dedup, ∀ d ∈ coplanarFour.dedup,
          (Frac.abs (simplexVolume a b c d)).le (⟨1, 100000⟩ : Frac)) ∧
    QuickHull.build coplanarFour ⟨1, 100000⟩ = .error .degenerateInput :=
  ⟨Or.inr (by decide),
    quickhull_degenerate_rejected coplanarFour ⟨1, 100000⟩ (Or.inr (by decide))⟩

-- ConvexHull3D face extraction (C1). `ConvexHull3D.__init__` walks the live
-- facets (`set(hull.facets) - hull.removed`), each facet's subfacets and
-- each subfacet's points; points carry object identity (`pid`) plus
-- coordinates, and the dict `d` keyed by point identity is an association
-- list. Python's set iteration order is not fixed, so the embedding takes
-- the facets, subfacets and points as lists in an arbitrary order and the
-- theorems hold for every order.

/-- A hull point: identity plus coordinates. -/
structure HullPoint (α : Type) where
  pid : Nat
  coordinates : α
deriving DecidableEq

structure ExtractState (α : Type) where
  vertices : List α
  c : Nat
  d : List (HullPoint α × Nat)
  faces : List (List Nat)
deriving DecidableEq

def lookupKey {α : Type} [DecidableEq α] :
    List (HullPoint α × Nat) → HullPoint α → Option Nat
  | [], _ => none
  | (q, i) :: rest, p => if p = q then some i else lookupKey rest p

def visitPoint {α : Type} [DecidableEq α]
    (acc : ExtractState α × List (HullPoint α)) (p : HullPoint α) :
    ExtractState α × List (HullPoint α) :=
  let st := acc.1
  let tmp := acc.2
  let stNew :=
    if lookupKey st.d p = none then
      { st with
        vertices := st.vertices ++ [p.coordinates]
        d := st.d ++ [(p, st.c)]
        c := st.c + 1 }
    else st
  (stNew, if p ∈ tmp then tmp else tmp ++ [p])

def visitFacet {α : Type} [DecidableEq α] (st : ExtractState α)
    (facet : List (List (HullPoint α))) : ExtractState α :=
  let res := facet.foldl (fun acc subfacet => subfacet.foldl visitPoint acc) (st, [])
  { res.1 with
    faces := res.1.faces ++ [res.2.map (fun p => (lookupKey res.1.d p).getD 0)] }

def extractFaces {α : Type} [DecidableEq α]
    (facets : List (List (List (HullPoint α)))) : ExtractState α :=
  facets.foldl visitFacet { vertices := [], c := 0, d := [], faces := [] }

def facetPoints {α : Type} (facet : List (List (HullPoint α))) : List (HullPoint α) :=
  facet.flatten

def pointStream {α : Type} (facets : List (List (List (HullPoint α)))) :
    List (HullPoint α) :=
  facets.flatMap facetPoints

def firstSightsFrom {β : Type} [DecidableEq β] (seen : List β) (l : List β) : List β :=
  l.foldl (fun acc p => if p ∈ acc then acc else acc ++ [p]) seen

def firstSights {β : Type} [DecidableEq β] (l : List β) : List β :=
  firstSightsFrom [] l

-- Basic lookup lemmas.

theorem lookupKey_isSome_iff {α : Type} [DecidableEq α]
    (d : List (HullPoint α × Nat)) (p : HullPoint α) :
    (lookupKey d p).isSome = true ↔ p ∈ d.map Prod.fst := by
  induction d with
  | nil => simp [lookupKey]
  | cons q rest ih =>
    obtain ⟨qp, qi⟩ := q
    by_cases hpq : p = qp
    · simp [lookupKey, hpq]
    · simp [lookupKey, hpq, ih]

theorem lookupKey_none_iff {α : Type} [DecidableEq α]
    (d : List (HullPoint α × Nat)) (p : HullPoint α) :
    lookupKey d p = none ↔ p ∉ d.map Prod.fst := by
  rw [← lookupKey_isSome_iff]
  cases lookupKey d p <;> simp

theorem lookupKey_mem {α : Type} [DecidableEq α]
    (d : List (HullPoint α × Nat)) (p : HullPoint α) (j : Nat)
    (h : lookupKey d p = some j) : (p, j) ∈ d := by
  induction d with
  | nil => exact absurd h (by simp [lookupKey])
  | cons q rest ih =>
    obtain ⟨qp, qi⟩ := q
    by_cases hpq : p = qp
    · subst hpq
      simp [lookupKey] at h
      simp [h]
    · simp [lookupKey, hpq] at h
      exact List.mem_cons_of_mem _ (ih h)

theorem lookupKey_append_left {α : Type} [DecidableEq α]
    (d rest : List (HullPoint α × Nat)) (p : HullPoint α) (j : Nat)
    (h : lookupKey d p = some j) : lookupKey (d ++ rest) p = some j := by
  induction d with
  | nil => exact absurd h (by simp [lookupKey])
  | cons q tail ih =>
    obtain ⟨qp, qi⟩ := q
    by_cases hpq : p = qp
    · simp_all [lookupKey, hpq]
    · simp_all [lookupKey, hpq]

-- Membership in accumulated first-sight lists.

theorem firstSightsFrom_cons {β : Type} [DecidableEq β] (seen : List β) (p : β) (l : List β) :
    firstSightsFrom seen (p :: l) =
      firstSightsFrom (if p ∈ seen then seen else seen ++ [p]) l := rfl

theorem mem_firstSightsFrom {β : Type} [DecidableEq β] (l : List β) :
    ∀ (seen : List β) (x : β), x ∈ firstSightsFrom seen l ↔ x ∈ seen ∨ x ∈ l := by
  induction l with
  | nil => intro seen x; simp [firstSightsFrom]
  | cons p rest ih =>
    intro seen x
    rw [firstSightsFrom_cons, ih]
    by_cases hps : p ∈ seen
    · rw [if_pos hps]
      constructor
      · rintro (hx | hx)
        · exact Or.inl hx
        · exact Or.inr (List.mem_cons_of_mem _ hx)
      · rintro (hx | hx)
        · exact Or.inl hx
        · rcases List.mem_cons.1 hx with hx | hx
          · exact Or.inl (hx ▸ hps)
          · exact Or.inr hx
    · rw [if_neg hps]
      constructor
      · rintro (hx | hx)
        · rcases List.mem_append.1 hx with hx | hx
          · exact Or.inl hx
          · exact Or.inr (by simpa using Or.inl (by simpa using hx))
        · exact Or.inr (List.mem_cons_of_mem _ hx)
      · rintro (hx | hx)
        · exact Or.inl (List.mem_append.2 (Or.inl hx))
        · rcases List.mem_cons.1 hx with hx | hx
          · exact Or.inl (List.mem_append.2 (Or.inr (by simp [hx])))
          · exact Or.inr hx

-- One-step reductions of `visitPoint`.

theorem visitPoint_snd {α : Type} [DecidableEq α]
    (acc : ExtractState α × List (HullPoint α)) (p : HullPoint α) :
    (visitPoint acc p).2 = if p ∈ acc.2 then acc.2 else acc.2 ++ [p] := rfl

theorem visitPoint_fst_new {α : Type} [DecidableEq α]
    (acc : ExtractState α × List (HullPoint α)) (p : HullPoint α)
    (h : lookupKey acc.1.d p = none) :
    (visitPoint acc p).1 =
      { acc.1 with
        vertices := acc.1.vertices ++ [p.coordinates]
        d := acc.1.d ++ [(p, acc.1.c)]
        c := acc.1.c + 1 } := by
  simp [visitPoint, h]

theorem visitPoint_fst_old {α : Type} [DecidableEq α]
    (acc : ExtractState α × List (HullPoint α)) (p : HullPoint α)
    (h : lookupKey acc.1.d p ≠ none) :
    (visitPoint acc p).1 = acc.1 := by
  simp [visitPoint, h]

/-- The bookkeeping invariant of the extraction loop: indices in `d` are
`0, 1, 2, ...` in key order, `vertices` lists the coordinates of `d`'s keys
in order, and the counter `c` is the table size. -/
def ExtractInv {α : Type} (st : ExtractState α) : Prop :=
  st.d.map Prod.snd = List.range st.d.length ∧
  st.vertices = st.d.map (fun q => q.1.coordinates) ∧
  st.c = st.d.length

-- Evolution of the state along a flat point list.

theorem foldl_visitPoint_keys {α : Type} [DecidableEq α] (l : List (HullPoint α)) :
    ∀ (acc : ExtractState α × List (HullPoint α)),
      ((l.foldl visitPoint acc).1).d.map Prod.fst =
        firstSightsFrom (acc.1.d.map Prod.fst) l := by
  induction l with
  | nil => intro acc; rfl
  | cons p rest ih =>
    intro acc
    rw [List.foldl_cons, firstSightsFrom_cons, ih]
    by_cases hmem : p ∈ acc.1.d.map Prod.fst
    · have hne : lookupKey acc.1.d p ≠ none := by
        rw [Ne, lookupKey_none_iff]
        exact fun hn => hn hmem
      rw [visitPoint_fst_old acc p hne, if_pos hmem]
    · have hnone : lookupKey acc.1.d p = none := (lookupKey_none_iff _ _).2 hmem
      rw [visitPoint_fst_new acc p hnone, if_neg hmem]
      congr 1
      simp

theorem foldl_visitPoint_tmp {α : Type} [DecidableEq α] (l : List (HullPoint α)) :
    ∀ (acc : ExtractState α × List (HullPoint α)),
      (l.foldl visitPoint acc).2 = firstSightsFrom acc.2 l := by
  induction l with
  | nil => intro acc; rfl
  | cons p rest ih =>
    intro acc
    rw [List.foldl_cons, firstSightsFrom_cons, ih, visitPoint_snd]

theorem foldl_visitPoint_d_grows {α : Type} [DecidableEq α] (l : List (HullPoint α)) :
    ∀ (acc : ExtractState α × List (HullPoint α)),
      ∃ rest, ((l.foldl visitPoint acc).1).d = acc.1.d ++ rest := by
  induction l with
  | nil => intro acc; exact ⟨[], by simp⟩
  | cons p rest ih =>
    intro acc
    rw [List.foldl_cons]
    obtain ⟨tail, htail⟩ := ih (visitPoint acc p)
    by_cases hnone : lookupKey acc.1.d p = none
    · rw [visitPoint_fst_new acc p hnone] at htail
      exact ⟨(p, acc.1.c) :: tail, by rw [htail]; simp⟩
    · rw [visitPoint_fst_old acc p hnone] at htail
      exact ⟨tail, htail⟩

theorem foldl_visitPoint_inv {α : Type} [DecidableEq α] (l : List (HullPoint α)) :
    ∀ (acc : ExtractState α × List (HullPoint α)),
      ExtractInv acc.1 → ExtractInv ((l.foldl visitPoint acc).1) := by
  induction l with
  | nil => intro acc h; exact h
  | cons p rest ih =>
    intro acc h
    rw [List.foldl_cons]
    apply ih
    by_cases hnone : lookupKey acc.1.d p = none
    · rw [visitPoint_fst_new acc p hnone]
      obtain ⟨h1, h2, h3⟩ := h
      refine ⟨?_, ?_, ?_⟩
      · simp only [List.map_append, List.length_append, h1, h3]
        simp [List.range_succ]
      · simp [h2]
      · simp [h3]
    · rw [visitPoint_fst_old acc p hnone]
      exact h

-- Reduction of `visitFacet` to a flat fold over the facet's points.

theorem visitFacet_eq {α : Type} [DecidableEq α] (st : ExtractState α)
    (facet : List (List (HullPoint α))) :
    visitFacet st facet =
      { ((facetPoints facet).foldl visitPoint (st, [])).1 with
        faces := ((facetPoints facet).foldl visitPoint (st, [])).1.faces ++
          [((facetPoints facet).foldl visitPoint (st, [])).2.map
            (fun p => (lookupKey ((facetPoints facet).foldl visitPoint (st, [])).1.d p).getD 0)] } := by
  unfold visitFacet facetPoints
  dsimp only
  rw [← List.foldl_flatten]

theorem visitFacet_d {α : Type} [DecidableEq α] (st : ExtractState α)
    (facet : List (List (HullPoint α))) :
    (visitFacet st facet).d = ((facetPoints facet).foldl visitPoint (st, [])).1.d := by
  rw [visitFacet_eq]

theorem visitFacet_inv {α : Type} [DecidableEq α] (st : ExtractState α)
    (facet : List (List (HullPoint α))) (h : ExtractInv st) :
    ExtractInv (visitFacet st facet) := by
  rw [visitFacet_eq]
  have := foldl_visitPoint_inv (facetPoints facet) (st, []) h
  obtain ⟨h1, h2, h3⟩ := this
  exact ⟨h1, h2, h3⟩

theorem visitFacet_d_grows {α : Type} [DecidableEq α] (st : ExtractState α)
    (facet : List (List (HullPoint α))) :
    ∃ rest, (visitFacet st facet).d = st.d ++ rest := by
  rw [visitFacet_d]
  exact foldl_visitPoint_d_grows (facetPoints facet) (st, [])

theorem visitFacet_keys {α : Type} [DecidableEq α] (st : ExtractState α)
    (facet : List (List (HullPoint α))) :
    (visitFacet st facet).d.map Prod.fst =
      firstSightsFrom (st.d.map Prod.fst) (facetPoints facet) := by
  rw [visitFacet_d]
  exact foldl_visitPoint_keys (facetPoints facet) (st, [])

theorem foldl_visitPoint_faces {α : Type} [DecidableEq α] (l : List (HullPoint α)) :
    ∀ (acc : ExtractState α × List (HullPoint α)),
      ((l.foldl visitPoint acc).1).faces = acc.1.faces := by
  induction l with
  | nil => intro acc; rfl
  | cons p rest ih =>
    intro acc
    rw [List.foldl_cons, ih]
    by_cases hnone : lookupKey acc.1.d p = none
    · rw [visitPoint_fst_new acc p hnone]
    · rw [visitPoint_fst_old acc p hnone]

theorem visitFacet_faces_char {α : Type} [DecidableEq α] (st : ExtractState α)
    (facet : List (List (HullPoint α))) :
    ∃ face0,
      (visitFacet st facet).faces = st.faces ++ [face0] ∧
      ∀ j, j ∈ face0 ↔ ∃ p, p ∈ facetPoints facet ∧
        lookupKey (visitFacet st facet).d p = some j := by
  rw [visitFacet_eq]
  have htmp := foldl_visitPoint_tmp (facetPoints facet) (st, [])
  have hkeys := foldl_visitPoint_keys (facetPoints facet) (st, [])
  set res := (facetPoints facet).foldl visitPoint (st, []) with hres
  refine ⟨res.2.map (fun p => (lookupKey res.1.d p).getD 0), ?_, ?_⟩
  · have := foldl_visitPoint_faces (facetPoints facet) (st, [])
    rw [hres]
    simp only [this]
  intro j
  have hmemtmp : ∀ p, p ∈ res.2 ↔ p ∈ facetPoints facet := by
    intro p
    rw [htmp, mem_firstSightsFrom]
    simp
  have hlook : ∀ p, p ∈ facetPoints facet → (lookupKey res.1.d p).isSome = true := by
    intro p hp
    rw [lookupKey_isSome_iff, hkeys, mem_firstSightsFrom]
    exact Or.inr hp
  constructor
  · intro hj
    obtain ⟨p, hp, hpj⟩ := List.mem_map.1 hj
    have hpf : p ∈ facetPoints facet := (hmemtmp p).1 hp
    obtain ⟨j', hj'⟩ := Option.isSome_iff_exists.1 (hlook p hpf)
    refine ⟨p, hpf, ?_⟩
    rw [hj']
    rw [hj'] at hpj
    simp at hpj
    rw [hpj]
  · rintro ⟨p, hpf, hpj⟩
    apply List.mem_map.2
    refine ⟨p, (hmemtmp p).2 hpf, ?_⟩
    rw [hpj]
    rfl

-- Shifted `getD` over an appended prefix.

theorem getD_append_len {γ : Type} (xs : List γ) :
    ∀ (ys : List γ) (k : Nat) (dflt : γ),
      (xs ++ ys).getD (xs.length + k) dflt = ys.getD k dflt := by
  induction xs with
  | nil => intro ys k dflt; simp
  | cons a xs ih =>
    intro ys k dflt
    show (a :: (xs ++ ys)).getD (xs.length + 1 + k) dflt = ys.getD k dflt
    have : xs.length + 1 + k = (xs.length + k) + 1 := by omega
    rw [this]
    show (xs ++ ys).getD (xs.length + k) dflt = ys.getD k dflt
    exact ih ys k dflt

-- The master loop invariant of the face-extraction pass.

theorem extract_loop {α : Type} [DecidableEq α]
    (facets : List (List (List (HullPoint α)))) :
    ∀ st : ExtractState α, ExtractInv st →
      ExtractInv (facets.foldl visitFacet st) ∧
      (∃ rest, (facets.foldl visitFacet st).d = st.d ++ rest) ∧
      (facets.foldl visitFacet st).d.map Prod.fst =
        firstSightsFrom (st.d.map Prod.fst) (pointStream facets) ∧
      (facets.foldl visitFacet st).faces.length = st.faces.length + facets.length ∧
      (∃ frest, (facets.foldl visitFacet st).faces = st.faces ++ frest) ∧
      (∀ k, k < facets.length → ∀ j,
        (j ∈ (facets.foldl visitFacet st).faces.getD (st.faces.length + k) [] ↔
          ∃ p, p ∈ facetPoints (facets.getD k []) ∧
            lookupKey (facets.foldl visitFacet st).d p = some j)) := by
  induction facets with
  | nil =>
    intro st hinv
    refine ⟨hinv, ⟨[], by simp⟩, by simp [pointStream, firstSightsFrom], by simp,
      ⟨[], by simp⟩, ?_⟩
    intro k hk
    exact absurd hk (by simp)
  | cons facet rest ih =>
    intro st hinv
    rw [List.foldl_cons]
    obtain ⟨ihInv, ⟨r2, hr2⟩, ihKeys, ihLen, ⟨fr, hfr⟩, ihChar⟩ :=
      ih (visitFacet st facet) (visitFacet_inv st facet hinv)
    obtain ⟨r1, hr1⟩ := visitFacet_d_grows st facet
    obtain ⟨face0, hface0, hchar0⟩ := visitFacet_faces_char st facet
    refine ⟨ihInv, ⟨r1 ++ r2, by rw [hr2, hr1, List.append_assoc]⟩, ?_, ?_, ?_, ?_⟩
    · rw [ihKeys, visitFacet_keys st facet]
      show _ = firstSightsFrom (st.d.map Prod.fst) (pointStream (facet :: rest))
      have hps : pointStream (facet :: rest) = facetPoints facet ++ pointStream rest := by
        simp [pointStream]
      rw [hps]
      unfold firstSightsFrom
      rw [List.foldl_append]
    · rw [ihLen, hface0]
      simp
      omega
    · exact ⟨face0 :: fr, by rw [hfr, hface0, List.append_assoc]; rfl⟩
    · intro k hk j
      cases k with
      | zero =>
        have hidx : (rest.foldl visitFacet (visitFacet st facet)).faces.getD
            (st.faces.length + 0) [] = face0 := by
          rw [hfr, hface0, List.append_assoc]
          rw [getD_append_len]
          rfl
        rw [hidx]
        show j ∈ face0 ↔ ∃ p, p ∈ facetPoints ((facet :: rest).getD 0 []) ∧ _
        have hget0 : (facet :: rest).getD 0 [] = facet := rfl
        rw [hget0]
        constructor
        · intro hj
          obtain ⟨p, hpf, hpl⟩ := (hchar0 j).1 hj
          refine ⟨p, hpf, ?_⟩
          rw [hr2]
          exact lookupKey_append_left _ _ _ _ hpl
        · rintro ⟨p, hpf, hpl⟩
          apply (hchar0 j).2
          have hpk : p ∈ (visitFacet st facet).d.map Prod.fst := by
            rw [visitFacet_keys st facet, mem_firstSightsFrom]
            exact Or.inr hpf
          obtain ⟨j', hj'⟩ := Option.isSome_iff_exists.1 ((lookupKey_isSome_iff _ _).2 hpk)
          have : lookupKey (rest.foldl visitFacet (visitFacet st facet)).d p = some j' := by
            rw [hr2]
            exact lookupKey_append_left _ _ _ _ hj'
          rw [this] at hpl
          have hj2 : j' = j := Option.some.inj hpl
          exact ⟨p, hpf, hj2 ▸ hj'⟩
      | succ k =>
        have hsh : st.faces.length + (k + 1) = (visitFacet st facet).faces.length + k := by
          rw [hface0]
          simp
          omega
        rw [hsh]
        have hget : (facet :: rest).getD (k + 1) [] = rest.getD k [] := rfl
        rw [hget]
        have hk2 : k < rest.length := by
          simp only [List.length_cons] at hk
          omega
        exact ihChar k hk2 j

/-- C1: hull-derived face extraction. For any traversal order of the live
facets, their subfacets and points (the embedding quantifies over the lists
in which Python's set iteration yields them): every distinct point gets a
fresh vertex-table index at first sighting — the key order of `d` is the
first-sight order of the traversal and its indices are `0, 1, 2, ...` in that
order, with `vertices` the coordinates of the keys in order; one face is
produced per facet, and face `k` contains exactly the vertex-table indices of
the distinct points touched by any subfacet of facet `k`; consequently every
index appearing in any produced face is below the vertex-table length. -/
theorem convexhull_face_extraction {α : Type} [DecidableEq α]
    (facets : List (List (List (HullPoint α)))) :
    (extractFaces facets).d.map Prod.fst = firstSights (pointStream facets) ∧
    (extractFaces facets).d.map Prod.snd = List.range (extractFaces facets).d.length ∧
    (extractFaces facets).vertices =
      (firstSights (pointStream facets)).map HullPoint.coordinates ∧
    (extractFaces facets).faces.length = facets.length ∧
    (∀ k, k < facets.length → ∀ j,
      (j ∈ (extractFaces facets).faces.getD k [] ↔
        ∃ p, p ∈ facetPoints (facets.getD k []) ∧
          lookupKey (extractFaces facets).d p = some j)) ∧
    (∀ face ∈ (extractFaces facets).faces, ∀ j ∈ face,
      j < (extractFaces facets).vertices.length) := by
  have h0 : ExtractInv ({ vertices := [], c := 0, d := [], faces := [] } : ExtractState α) :=
    ⟨rfl, rfl, rfl⟩
  obtain ⟨hInv, -, hKeys, hLen, -, hChar⟩ := extract_loop facets _ h0
  obtain ⟨hSnd, hVert, hC⟩ := hInv
  have hE : extractFaces facets =
      facets.foldl visitFacet { vertices := [], c := 0, d := [], faces := [] } := rfl
  rw [hE]
  have hKeys' : (facets.foldl visitFacet
      ({ vertices := [], c := 0, d := [], faces := [] } : ExtractState α)).d.map Prod.fst =
      firstSights (pointStream facets) := hKeys
  refine ⟨hKeys', hSnd, ?_, by simpa using hLen, ?_, ?_⟩
  · rw [hVert, ← hKeys', List.map_map]
    rfl
  · intro k hk j
    have := hChar k hk j
    simpa using this
  · intro face hface j hj
    obtain ⟨k, hklt, hkface⟩ := List.getElem_of_mem hface
    have hkD : (facets.foldl visitFacet
        ({ vertices := [], c := 0, d := [], faces := [] } : ExtractState α)).faces.getD k [] =
        face := by
      rw [List.getD_eq_getElem _ _ hklt, hkface]
    have hfl : (facets.foldl visitFacet
        ({ vertices := [], c := 0, d := [], faces := [] } : ExtractState α)).faces.length =
        facets.length := by simpa using hLen
    have hklt2 : k < facets.length := by rw [hfl] at hklt; exact hklt
    have hidx := hChar k hklt2 j
    have h00 : ({ vertices := [], c := 0, d := [], faces := [] } :
        ExtractState α).faces.length + k = k := by simp
    rw [h00, hkD] at hidx
    obtain ⟨p, hpf, hpl⟩ := hidx.1 hj
    have hpj : (p, j) ∈ (facets.foldl visitFacet
        ({ vertices := [], c := 0, d := [], faces := [] } : ExtractState α)).d :=
      lookupKey_mem _ _ _ hpl
    have hjm : j ∈ (facets.foldl visitFacet
        ({ vertices := [], c := 0, d := [], faces := [] } : ExtractState α)).d.map Prod.snd :=
      List.mem_map.2 ⟨(p, j), hpj, rfl⟩
    rw [hSnd, List.mem_range] at hjm
    rw [hVert, List.length_map]
    exact hjm

def wpt (n : Nat) : HullPoint Nat := ⟨n, 100 + n⟩

def demoFacets : List (List (List (HullPoint Nat))) :=
  [[[wpt 0, wpt 1], [wpt 1, wpt 2], [wpt 2, wpt 0]],
   [[wpt 0, wpt 1], [wpt 1, wpt 3], [wpt 3, wpt 0]]]

theorem convexhull_face_extraction_witness :
    3 ∈ (extractFaces demoFacets).faces.getD 1 [] :=
  ((convexhull_face_extraction demoFacets).2.2.2.2.1 1 (by decide) 3).mpr
    ⟨wpt 3, by decide, by decide⟩
